import Mathlib

/-!
# Verification of the WOO HTTP client's request-signing core

Shallow embedding of `src/woo.rs` and `src/woo_data_structs.rs`.

Rust `String`/`str` values are embedded as their UTF-8 byte sequences
(`List Nat`, each element < 256), which is exactly what a Rust `String`
is; comparisons (`str`'s `Ord`, used by `Vec::sort`, and `BTreeMap`'s key
order) are byte-wise lexicographic, so this embedding renders them
directly.  Input text (field names and values) enters as Lean `String`
and is converted once by `utf8`.
-/

namespace Woo

/-- UTF-8 encoding of a single unicode scalar value (code point `c.toNat`). -/
def utf8Char (c : Char) : List Nat :=
  let n := c.toNat
  if n < 128 then [n]
  else if n < 2048 then [192 + n / 64, 128 + n % 64]
  else if n < 65536 then [224 + n / 4096, 128 + n / 64 % 64, 128 + n % 64]
  else [240 + n / 262144, 128 + n / 4096 % 64, 128 + n / 64 % 64, 128 + n % 64]

/-- The UTF-8 bytes of a string: the byte content of a Rust `String`. -/
def utf8 (s : String) : List Nat :=
  (s.data.map utf8Char).flatten

/-- One serialized request field: its name and its value, the value already
rendered to text the way Rust's `Display` renders it during `serde`
serialization (`u32` and `bool` render canonically; `f64` is carried as its
`Display` rendering, see `F64`). -/
structure Field where
  key : String
  value : String
deriving DecidableEq

/-- An `f64` struct field, embedded as the decimal text Rust's `Display`
produces for it (e.g. `9000.0` renders as `"9000"`, `0.11` as `"0.11"`).
Floating-point values only flow through serialization in this program, so
their wire rendering is all the embedding needs. -/
structure F64 where
  repr : String
deriving DecidableEq

/-- Is `b` a byte that query-string encoding passes through unchanged?
(`form_urlencoded` / `serde_qs`: ASCII alphanumerics and `*` `-` `.` `_`.) -/
def isUnreservedByte (b : Nat) : Bool :=
  (48 ≤ b && b ≤ 57) || (65 ≤ b && b ≤ 90) || (97 ≤ b && b ≤ 122)
    || b == 42 || b == 45 || b == 46 || b == 95

/-- Byte of the uppercase hexadecimal digit for `n < 16`. -/
def hexUpperByte (n : Nat) : Nat :=
  if n < 10 then 48 + n else 55 + n

/-- Query-string (form-urlencoded) encoding of one byte: unreserved bytes
pass through, space becomes `+` (byte 43), anything else becomes
`%XX` (byte 37 then two uppercase hex digit bytes). -/
def encodeByte (b : Nat) : List Nat :=
  if isUnreservedByte b then [b]
  else if b == 32 then [43]
  else [37, hexUpperByte (b / 16), hexUpperByte (b % 16)]

/-- Percent-encode the UTF-8 bytes of a string (the encoding `serde_qs`
applies to every key and value it serializes). -/
def percentEncode (s : String) : List Nat :=
  ((utf8 s).map encodeByte).flatten

/-- The `key=value` segment `serde_qs` emits for one present field
(byte 61 is `=`). -/
def encodePair (f : Field) : List Nat :=
  percentEncode f.key ++ 61 :: percentEncode f.value

/-- `Vec::join("&")` / the `&`-joined query string (byte 38 is `&`). -/
def joinAmp : List (List Nat) → List Nat
  | [] => []
  | [g] => g
  | g :: gs => g ++ 38 :: joinAmp gs

/-- `serde_qs::to_string`: serialize the present fields, in struct
declaration order, as `key=value` segments joined by `&`. -/
def serde_qs_to_string (fields : List Field) : List Nat :=
  joinAmp (fields.map encodePair)

/-- Rust `str::split('&')` on the byte content: splits at every byte 38,
yielding one (possibly empty) segment more than the number of separators;
in particular the empty string yields the single segment `[[]]`. -/
def splitAmp : List Nat → List (List Nat)
  | [] => [[]]
  | b :: bs =>
    let r := splitAmp bs
    if b == 38 then [] :: r
    else
      match r with
      | [] => [[b]]
      | g :: gs => (b :: g) :: gs

/-- Byte-wise lexicographic `≤` on byte sequences: Rust's `Ord` on
`str`/`[u8]`, the comparison `Vec::sort` uses on the split segments. -/
def byteLe : List Nat → List Nat → Bool
  | [], _ => true
  | _ :: _, [] => false
  | a :: as, b :: bs => a < b || (a == b && byteLe as bs)

/-- `byteLe` as a relation, for use with `List.insertionSort`. -/
def pairLe (a b : List Nat) : Prop := byteLe a b = true

instance : DecidableRel pairLe := fun a b =>
  inferInstanceAs (Decidable (byteLe a b = true))

instance : IsTotal (List Nat) pairLe where
  total a b := by
    unfold pairLe
    induction a generalizing b with
    | nil => left; rfl
    | cons x xs ih =>
      cases b with
      | nil => right; rfl
      | cons y ys =>
        rcases ih ys with h | h <;> simp [byteLe, h] <;> omega

instance : IsTrans (List Nat) pairLe where
  trans a b c h1 h2 := by
    unfold pairLe at h1 h2 ⊢
    induction a generalizing b c with
    | nil => rfl
    | cons x xs ih =>
      cases b with
      | nil => simp [byteLe] at h1
      | cons y ys =>
        cases c with
        | nil => simp [byteLe] at h2
        | cons z zs =>
          simp only [byteLe, Bool.or_eq_true, Bool.and_eq_true, decide_eq_true_eq,
            beq_iff_eq] at h1 h2 ⊢
          rcases h1 with h1 | ⟨h1e, h1r⟩ <;> rcases h2 with h2 | ⟨h2e, h2r⟩
          · left; omega
          · left; omega
          · left; omega
          · right; exact ⟨by omega, ih ys zs h1r h2r⟩

instance : IsAntisymm (List Nat) pairLe where
  antisymm a b h1 h2 := by
    unfold pairLe at h1 h2
    induction a generalizing b with
    | nil =>
      cases b with
      | nil => rfl
      | cons y ys => simp [byteLe] at h2
    | cons x xs ih =>
      cases b with
      | nil => simp [byteLe] at h1
      | cons y ys =>
        simp only [byteLe, Bool.or_eq_true, Bool.and_eq_true, decide_eq_true_eq,
          beq_iff_eq] at h1 h2
        rcases h1 with h1 | ⟨h1e, h1r⟩ <;> rcases h2 with h2 | ⟨h2e, h2r⟩
        · exfalso; omega
        · exfalso; omega
        · exfalso; omega
        · rw [h1e, ih ys h1r h2r]

/-- The split–sort–join step of `generate_sorted_query_string`: split the
query string on `&`, sort the segments byte-lexicographically, rejoin
with `&`. -/
def sortSegments (s : List Nat) : List Nat :=
  joinAmp (List.insertionSort pairLe (splitAmp s))

/-- `Woo::generate_sorted_query_string`: serialize with `serde_qs`, split
the result on `&`, sort the segment strings, and join them back with `&`. -/
def generate_sorted_query_string (fields : List Field) : List Nat :=
  sortSegments (serde_qs_to_string fields)

/-- `WooOrder` (src/woo_data_structs.rs); `#[serde_with::skip_serializing_none]`
drops `None` fields from serialization.  `u32` is embedded as `Nat`,
`f64` as `F64` (its `Display` rendering). -/
structure WooOrder where
  symbol : String
  client_order_id : Option Nat
  order_tag : Option String
  order_type : String
  order_price : Option F64
  order_quantity : Option F64
  order_amount : Option F64
  reduce_only : Option Bool
  visible_quantity : Option F64
  side : String
  position_side : Option String
deriving DecidableEq

/-- `CancelOrder` (src/woo_data_structs.rs). -/
structure CancelOrder where
  order_id : Nat
  symbol : String
deriving DecidableEq

/-- The zero-or-one serialized fields contributed by an optional struct
field (`skip_serializing_none`). -/
def optField (key : String) : Option String → List Field
  | none => []
  | some v => [⟨key, v⟩]

/-- Rust `bool` `Display`. -/
def boolRepr (b : Bool) : String := if b then "true" else "false"

/-- The sequence of present fields `serde` emits for a `WooOrder`, in
struct declaration order. -/
def wooOrderFields (o : WooOrder) : List Field :=
  [⟨"symbol", o.symbol⟩]
    ++ optField "client_order_id" (o.client_order_id.map Nat.repr)
    ++ optField "order_tag" o.order_tag
    ++ [⟨"order_type", o.order_type⟩]
    ++ optField "order_price" (o.order_price.map F64.repr)
    ++ optField "order_quantity" (o.order_quantity.map F64.repr)
    ++ optField "order_amount" (o.order_amount.map F64.repr)
    ++ optField "reduce_only" (o.reduce_only.map boolRepr)
    ++ optField "visible_quantity" (o.visible_quantity.map F64.repr)
    ++ [⟨"side", o.side⟩]
    ++ optField "position_side" o.position_side

/-- The sequence of fields `serde` emits for a `CancelOrder`, in struct
declaration order. -/
def cancelOrderFields (c : CancelOrder) : List Field :=
  [⟨"order_id", Nat.repr c.order_id⟩, ⟨"symbol", c.symbol⟩]

/-! ## SHA-256 and HMAC (the `Hmac::<Sha256>` / `hex::encode` pipeline)

FIPS 180-4 SHA-256 over byte sequences, and RFC 2104 HMAC, embedded with
`Nat` arithmetic; 32-bit words are `Nat`s kept below `2 ^ 32` by explicit
reduction. -/

/-- Addition modulo `2 ^ 32`. -/
def add32 (a b : Nat) : Nat := (a + b) % 4294967296

/-- Right rotation of a 32-bit word by `n` places. -/
def rotr (n x : Nat) : Nat := x / 2 ^ n + x % 2 ^ n * 2 ^ (32 - n)

/-- SHA-256 `Ch(x, y, z)`. -/
def ch (x y z : Nat) : Nat := x &&& y ^^^ (x ^^^ 4294967295) &&& z

/-- SHA-256 `Maj(x, y, z)`. -/
def maj (x y z : Nat) : Nat := x &&& y ^^^ x &&& z ^^^ y &&& z

/-- SHA-256 `Σ₀`. -/
def bigSigma0 (x : Nat) : Nat := rotr 2 x ^^^ rotr 13 x ^^^ rotr 22 x

/-- SHA-256 `Σ₁`. -/
def bigSigma1 (x : Nat) : Nat := rotr 6 x ^^^ rotr 11 x ^^^ rotr 25 x

/-- SHA-256 `σ₀`. -/
def smallSigma0 (x : Nat) : Nat := rotr 7 x ^^^ rotr 18 x ^^^ x / 8

/-- SHA-256 `σ₁`. -/
def smallSigma1 (x : Nat) : Nat := rotr 17 x ^^^ rotr 19 x ^^^ x / 1024

/-- The SHA-256 round constants `K`, in decimal. -/
def shaK : List Nat :=
  [1116352408, 1899447441, 3049323471, 3921009573, 961987163, 1508970993,
   2453635748, 2870763221, 3624381080, 310598401, 607225278, 1426881987,
   1925078388, 2162078206, 2614888103, 3248222580, 3835390401, 4022224774,
   264347078, 604807628, 770255983, 1249150122, 1555081692, 1996064986,
   2554220882, 2821834349, 2952996808, 3210313671, 3336571891, 3584528711,
   113926993, 338241895, 666307205, 773529912, 1294757372, 1396182291,
   1695183700, 1986661051, 2177026350, 2456956037, 2730485921, 2820302411,
   3259730800, 3345764771, 3516065817, 3600352804, 4094571909, 275423344,
   430227734, 506948616, 659060556, 883997877, 958139571, 1322822218,
   1537002063, 1747873779, 1955562222, 2024104815, 2227730452, 2361852424,
   2428436474, 2756734187, 3204031479, 3329325298]

/-- The SHA-256 working state: eight 32-bit words. -/
structure Sha256State where
  a : Nat
  b : Nat
  c : Nat
  d : Nat
  e : Nat
  f : Nat
  g : Nat
  h : Nat

/-- One SHA-256 compression round with round constant `k` and schedule
word `w`. -/
def shaRound (s : Sha256State) (k w : Nat) : Sha256State :=
  let t1 := add32 (add32 (add32 (add32 s.h (bigSigma1 s.e)) (ch s.e s.f s.g)) k) w
  let t2 := add32 (bigSigma0 s.a) (maj s.a s.b s.c)
  ⟨add32 t1 t2, s.a, s.b, s.c, add32 s.d t1, s.e, s.f, s.g⟩

/-- Run the 64 compression rounds over paired round constants and
schedule words. -/
def shaRounds : Sha256State → List (Nat × Nat) → Sha256State
  | s, [] => s
  | s, (k, w) :: rest => shaRounds (shaRound s k w) rest

/-- Extend the 16 message words to the 64-word schedule (`n` words still
to append). -/
def extendSchedule (w : List Nat) : Nat → List Nat
  | 0 => w
  | n + 1 =>
    let i := w.length
    let next := (smallSigma1 (w.getD (i - 2) 0) + w.getD (i - 7) 0
      + smallSigma0 (w.getD (i - 15) 0) + w.getD (i - 16) 0) % 4294967296
    extendSchedule (w ++ [next]) n

/-- Big-endian 32-bit words from a byte sequence (4 bytes per word). -/
def bytesToWords : List Nat → List Nat
  | b0 :: b1 :: b2 :: b3 :: rest =>
    (((b0 * 256 + b1) * 256 + b2) * 256 + b3) :: bytesToWords rest
  | _ => []

/-- Compress one 64-byte block into the running hash state. -/
def compressBlock (s : Sha256State) (block : List Nat) : Sha256State :=
  let w := extendSchedule (bytesToWords block) 48
  let t := shaRounds s (shaK.zip w)
  ⟨add32 s.a t.a, add32 s.b t.b, add32 s.c t.c, add32 s.d t.d,
   add32 s.e t.e, add32 s.f t.f, add32 s.g t.g, add32 s.h t.h⟩

/-- Cut a byte sequence into 64-byte blocks (`fuel` bounds the recursion;
callers pass the list length). -/
def chunk64 : Nat → List Nat → List (List Nat)
  | 0, _ => []
  | _ + 1, [] => []
  | fuel + 1, bs => bs.take 64 :: chunk64 fuel (bs.drop 64)

/-- Big-endian 8-byte encoding of `n` (the padded bit-length field). -/
def be64 (n : Nat) : List Nat :=
  [n / 2 ^ 56 % 256, n / 2 ^ 48 % 256, n / 2 ^ 40 % 256, n / 2 ^ 32 % 256,
   n / 2 ^ 24 % 256, n / 2 ^ 16 % 256, n / 2 ^ 8 % 256, n % 256]

/-- Big-endian 4-byte encoding of a 32-bit word. -/
def be32 (n : Nat) : List Nat :=
  [n / 2 ^ 24 % 256, n / 2 ^ 16 % 256, n / 2 ^ 8 % 256, n % 256]

/-- SHA-256 padding: append `0x80`, zero bytes to 56 mod 64, then the
bit length as 8 big-endian bytes. -/
def shaPad (msg : List Nat) : List Nat :=
  msg ++ 128 :: List.replicate ((119 - msg.length % 64) % 64) 0 ++ be64 (8 * msg.length)

/-- The SHA-256 initial hash value, in decimal. -/
def shaInit : Sha256State :=
  ⟨1779033703, 3144134277, 1013904242, 2773480762,
   1359893119, 2600822924, 528734635, 1541459225⟩

/-- SHA-256 of a byte sequence, as 32 bytes. -/
def sha256 (msg : List Nat) : List Nat :=
  let padded := shaPad msg
  let final := (chunk64 padded.length padded).foldl compressBlock shaInit
  be32 final.a ++ be32 final.b ++ be32 final.c ++ be32 final.d
    ++ be32 final.e ++ be32 final.f ++ be32 final.g ++ be32 final.h

/-- RFC 2104 HMAC-SHA256 (block size 64): hash over-long keys, zero-pad,
XOR with the inner/outer pads, and nest two hashes.  This is total in the
key — `Hmac::<Sha256>::new_from_slice` accepts keys of every length. -/
def hmacSha256 (key msg : List Nat) : List Nat :=
  let k0 := if 64 < key.length then sha256 key else key
  let kpad := k0 ++ List.replicate (64 - k0.length) 0
  let ipad := kpad.map (fun b => b ^^^ 54)
  let opad := kpad.map (fun b => b ^^^ 92)
  sha256 (opad ++ sha256 (ipad ++ msg))

/-- Byte of the lowercase hexadecimal digit for `n < 16`. -/
def hexLowerByte (n : Nat) : Nat :=
  if n < 10 then 48 + n else 87 + n

/-- `hex::encode`: two lowercase hex digit bytes per input byte. -/
def hexEncodeBytes (bs : List Nat) : List Nat :=
  (bs.map (fun b => [hexLowerByte (b / 16), hexLowerByte (b % 16)])).flatten

/-- The `format!("{}|{}", sorted_query_string, timestamp)` concatenation:
the Signature Input (byte 124 is `|`; `Nat.repr` is `u64` `Display`). -/
def signature_input (sorted_query_string : List Nat) (timestamp : Nat) : List Nat :=
  sorted_query_string ++ 124 :: utf8 (Nat.repr timestamp)

/-- `Woo::generate_hmac_sha256_signature`: HMAC-SHA256 of the Signature
Input keyed by the secret's bytes, hex-encoded in lowercase. -/
def generate_hmac_sha256_signature
    (sorted_query_string : List Nat) (timestamp : Nat) (secret_key : List Nat) :
    List Nat :=
  hexEncodeBytes (hmacSha256 secret_key (signature_input sorted_query_string timestamp))

/-- The Canonical Query String as the spec words it: form the `key=value`
pair-strings of the present fields, sort those fully-formed pair-strings
byte-lexicographically, and join them with `&` — with no intermediate
single-string round trip. -/
def specSortedQueryString (fields : List Field) : List Nat :=
  joinAmp (List.insertionSort pairLe (fields.map encodePair))

/-- The signer as the spec words it: Signature Input built as
`canonical_query_string + "|" + decimal(timestamp)`, HMAC-SHA256 over its
UTF-8 bytes keyed by the secret's UTF-8 bytes, hex-encoded in lowercase. -/
def spec_signer (sorted_query_string : List Nat) (timestamp : Nat) (secret_key : List Nat) :
    List Nat :=
  hexEncodeBytes (hmacSha256 secret_key
    (sorted_query_string ++ utf8 ("|" ++ Nat.repr timestamp)))

/-- The eleven field names a `WooOrder` can serialize. -/
def wooKeys : List String :=
  ["symbol", "client_order_id", "order_tag", "order_type", "order_price",
   "order_quantity", "order_amount", "reduce_only", "visible_quantity",
   "side", "position_side"]

/-- The names of the optional `WooOrder` fields currently set to `None`
(the fields `skip_serializing_none` drops). -/
def noneFieldKeys (o : WooOrder) : List String :=
  (if o.client_order_id = none then ["client_order_id"] else [])
    ++ (if o.order_tag = none then ["order_tag"] else [])
    ++ (if o.order_price = none then ["order_price"] else [])
    ++ (if o.order_quantity = none then ["order_quantity"] else [])
    ++ (if o.order_amount = none then ["order_amount"] else [])
    ++ (if o.reduce_only = none then ["reduce_only"] else [])
    ++ (if o.visible_quantity = none then ["visible_quantity"] else [])
    ++ (if o.position_side = none then ["position_side"] else [])

/-- Value of an ASCII hexadecimal digit byte (either case). -/
def fromHexDigitByte (d : Nat) : Nat :=
  if d ≤ 57 then d - 48 else if d ≤ 70 then d - 55 else d - 87

/-- Percent-decoding of form-urlencoded bytes: `%XX` becomes the byte,
`+` becomes space, everything else passes through (a truncated trailing
escape is kept as-is). -/
def percentDecode : List Nat → List Nat
  | [] => []
  | b :: rest =>
    if b = 37 then
      match rest with
      | h :: l :: rest2 =>
        (fromHexDigitByte h * 16 + fromHexDigitByte l) :: percentDecode rest2
      | [h] => [b, h]
      | [] => [b]
    else if b = 43 then 32 :: percentDecode rest
    else b :: percentDecode rest

/-- Split a `key=value` segment at its first `=` (byte 61). -/
def splitEq : List Nat → List Nat × List Nat
  | [] => ([], [])
  | b :: bs =>
    if b = 61 then ([], bs)
    else
      let r := splitEq bs
      (b :: r.1, r.2)

/-- Decode one `key=value` segment into its (decoded key, decoded value)
pair, the way `serde_qs::from_str` populates the map. -/
def decodePair (seg : List Nat) : List Nat × List Nat :=
  let r := splitEq seg
  (percentDecode r.1, percentDecode r.2)

/-- Ordered insertion into a `BTreeMap<String, String>` rendered as a
key-sorted association list; inserting an existing key replaces its value. -/
def btreeInsert (k v : List Nat) : List (List Nat × List Nat) → List (List Nat × List Nat)
  | [] => [(k, v)]
  | (k2, v2) :: rest =>
    if k = k2 then (k, v) :: rest
    else if byteLe k k2 then (k, v) :: (k2, v2) :: rest
    else (k2, v2) :: btreeInsert k v rest

/-- Collect parsed pairs into the `BTreeMap`, first to last. -/
def btreeFromPairs (ps : List (List Nat × List Nat)) : List (List Nat × List Nat) :=
  ps.foldl (fun m p => btreeInsert p.1 p.2 m) []

/-- `serde_qs::from_str`: split on `&` and decode every segment. -/
def parseQsPairs (s : List Nat) : List (List Nat × List Nat) :=
  (splitAmp s).map decodePair

/-- The authenticated parts of the HTTP request the builder assembles:
the `x-api-timestamp` header (the sampled `timestamp_millis`, an `i64`,
rendered in decimal), the `x-api-signature` header, and the form body
(the `BTreeMap` whose pairs `.form(&deserialized)` transmits). -/
structure HttpRequest where
  method : String
  path : String
  x_api_timestamp : String
  x_api_signature : List Nat
  body : List (List Nat × List Nat)

/-- Rust's `as u64` cast of an `i64`: reinterpret modulo `2 ^ 64`. -/
def toU64 (t : Int) : Nat := (t % (2 : Int) ^ 64).toNat

/-- `Woo::create_order`, up to the actual network send: one timestamp is
sampled and used for both headers; the body is `serde_qs::to_string` of
the order parsed back into a `BTreeMap`. -/
def create_order_request (secret : List Nat) (order : WooOrder) (timestamp : Int) :
    HttpRequest :=
  { method := "POST"
    path := "v1/order"
    x_api_timestamp := toString timestamp
    x_api_signature := generate_hmac_sha256_signature
      (generate_sorted_query_string (wooOrderFields order)) (toU64 timestamp) secret
    body := btreeFromPairs (parseQsPairs (serde_qs_to_string (wooOrderFields order))) }

/-- `Woo::cancel_order`, up to the actual network send. -/
def cancel_order_request (secret : List Nat) (cancel : CancelOrder) (timestamp : Int) :
    HttpRequest :=
  { method := "DELETE"
    path := "v1/order"
    x_api_timestamp := toString timestamp
    x_api_signature := generate_hmac_sha256_signature
      (generate_sorted_query_string (cancelOrderFields cancel)) (toU64 timestamp) secret
    body := btreeFromPairs (parseQsPairs (serde_qs_to_string (cancelOrderFields cancel))) }

/-- `b` is the byte of an ASCII lowercase hexadecimal digit. -/
def isLowerHexByte (b : Nat) : Prop :=
  48 ≤ b ∧ b ≤ 57 ∨ 97 ≤ b ∧ b ≤ 102

/-- The known-vector order of the `test_hash_order` test and of the spec's
known-vector scenario: `order_price: 9000.0` and `order_quantity: 0.11`
(`f64` `Display`: `"9000"` and `"0.11"`), all optional fields absent. -/
def knownVectorOrder : WooOrder :=
  { symbol := "SPOT_BTC_USDT"
    client_order_id := none
    order_tag := none
    order_type := "LIMIT"
    order_price := some ⟨"9000"⟩
    order_quantity := some ⟨"0.11"⟩
    order_amount := none
    reduce_only := none
    visible_quantity := none
    side := "BUY"
    position_side := none }

/-- A sample cancel request, used to instantiate universally quantified
theorems at a concrete input. -/
def sampleCancelOrder : CancelOrder :=
  { order_id := 1, symbol := "SPOT_ULP_USDT" }

/-! ## Split / join lemmas -/

theorem splitAmp_ne_nil (s : List Nat) : splitAmp s ≠ [] := by
  cases s with
  | nil => simp [splitAmp]
  | cons b bs =>
    simp only [splitAmp]
    split
    · simp
    · split <;> simp

theorem mem_splitAmp_no38 {s : List Nat} {g : List Nat}
    (hg : g ∈ splitAmp s) : (38 : Nat) ∉ g := by
  induction s generalizing g with
  | nil => simp [splitAmp] at hg; simp [hg]
  | cons b bs ih =>
    simp only [splitAmp] at hg
    by_cases hb : b = 38
    · simp [hb] at hg
      rcases hg with hg | hg
      · simp [hg]
      · exact ih hg
    · rw [if_neg (by simpa using hb)] at hg
      rcases hr : splitAmp bs with _ | ⟨g0, gs⟩
      · exact absurd hr (splitAmp_ne_nil bs)
      · rw [hr] at hg
        rcases List.mem_cons.mp hg with hg | hg
        · subst hg
          intro hmem
          rcases List.mem_cons.mp hmem with h | h
          · exact hb h.symm
          · exact ih (hr ▸ List.mem_cons_self g0 gs) h
        · exact ih (hr ▸ List.mem_cons_of_mem g0 hg)

theorem splitAmp_cons_ne {b : Nat} (bs : List Nat) (hb : b ≠ 38) {g : List Nat}
    {gs : List (List Nat)} (h : splitAmp bs = g :: gs) :
    splitAmp (b :: bs) = (b :: g) :: gs := by
  simp only [splitAmp, h]
  rw [if_neg (by simpa using hb)]

theorem splitAmp_of_no38 {g : List Nat} (h : (38 : Nat) ∉ g) : splitAmp g = [g] := by
  induction g with
  | nil => rfl
  | cons b bs ih =>
    simp only [List.mem_cons, not_or] at h
    exact splitAmp_cons_ne bs (fun e => h.1 e.symm) (ih h.2)

theorem splitAmp_append38 {g : List Nat} (t : List Nat) (h : (38 : Nat) ∉ g) :
    splitAmp (g ++ 38 :: t) = g :: splitAmp t := by
  induction g with
  | nil => simp [splitAmp]
  | cons b bs ih =>
    simp only [List.mem_cons, not_or] at h
    rw [List.cons_append, splitAmp_cons_ne _ (fun e => h.1 e.symm) (ih h.2)]

theorem splitAmp_joinAmp {gs : List (List Nat)} (hne : gs ≠ [])
    (hfree : ∀ g ∈ gs, (38 : Nat) ∉ g) : splitAmp (joinAmp gs) = gs := by
  induction gs with
  | nil => exact absurd rfl hne
  | cons g rest ih =>
    cases rest with
    | nil => exact splitAmp_of_no38 (hfree g (List.mem_cons_self g []))
    | cons g2 rest2 =>
      rw [show joinAmp (g :: g2 :: rest2) = g ++ 38 :: joinAmp (g2 :: rest2) from rfl,
        splitAmp_append38 _ (hfree g (List.mem_cons_self _ _)),
        ih (by simp) (fun x hx => hfree x (List.mem_cons_of_mem g hx))]

/-! ## The encoded segments contain no separator bytes -/

theorem encodeByte_no38 (b : Nat) : (38 : Nat) ∉ encodeByte b := by
  simp only [encodeByte]
  split
  · rename_i h
    simp only [isUnreservedByte, Bool.or_eq_true, Bool.and_eq_true, beq_iff_eq,
      decide_eq_true_eq] at h
    simp only [List.mem_singleton]
    omega
  · split
    · simp
    · simp only [List.mem_cons, List.not_mem_nil, or_false, not_or, hexUpperByte]
      constructor
      · omega
      · constructor <;> split <;> omega

theorem encodeByte_no61 (b : Nat) : (61 : Nat) ∉ encodeByte b := by
  simp only [encodeByte]
  split
  · rename_i h
    simp only [isUnreservedByte, Bool.or_eq_true, Bool.and_eq_true, beq_iff_eq,
      decide_eq_true_eq] at h
    simp only [List.mem_singleton]
    omega
  · split
    · simp
    · simp only [List.mem_cons, List.not_mem_nil, or_false, not_or, hexUpperByte]
      constructor
      · omega
      · constructor <;> split <;> omega

theorem percentEncode_no38 (s : String) : (38 : Nat) ∉ percentEncode s := by
  simp only [percentEncode, List.mem_flatten, List.mem_map, not_exists]
  rintro l ⟨⟨b, _, rfl⟩, hmem⟩
  exact encodeByte_no38 b hmem

theorem percentEncode_no61 (s : String) : (61 : Nat) ∉ percentEncode s := by
  simp only [percentEncode, List.mem_flatten, List.mem_map, not_exists]
  rintro l ⟨⟨b, _, rfl⟩, hmem⟩
  exact encodeByte_no61 b hmem

theorem encodePair_no38 (f : Field) : (38 : Nat) ∉ encodePair f := by
  simp only [encodePair, List.mem_append, List.mem_cons, not_or]
  exact ⟨percentEncode_no38 _, by omega, percentEncode_no38 _⟩

/-- Splitting the serialized query string on `&` recovers exactly the
encoded `key=value` segments (for at least one present field). -/
theorem splitAmp_serde {fields : List Field} (h : fields ≠ []) :
    splitAmp (serde_qs_to_string fields) = fields.map encodePair := by
  refine splitAmp_joinAmp (by simpa using h) ?_
  rintro g hg
  rcases List.mem_map.mp hg with ⟨f, _, rfl⟩
  exact encodePair_no38 f

/-! ## The encoder as a sort of the encoded pairs -/

theorem gsqs_eq_spec (fields : List Field) :
    generate_sorted_query_string fields = specSortedQueryString fields := by
  cases fields with
  | nil => rfl
  | cons f fs =>
    unfold generate_sorted_query_string sortSegments specSortedQueryString
    rw [splitAmp_serde (by simp)]

theorem gsqs_of_perm {f1 f2 : List Field} (h : f1.Perm f2) :
    generate_sorted_query_string f1 = generate_sorted_query_string f2 := by
  rw [gsqs_eq_spec, gsqs_eq_spec]
  unfold specSortedQueryString
  congr 1
  exact List.eq_of_perm_of_sorted
    ((List.perm_insertionSort pairLe _).trans
      ((h.map encodePair).trans (List.perm_insertionSort pairLe _).symm))
    (List.sorted_insertionSort pairLe _)
    (List.sorted_insertionSort pairLe _)

/-- Splitting the sorted query string recovers its sorted segments. -/
theorem splitAmp_sortSegments (s : List Nat) :
    splitAmp (sortSegments s) = List.insertionSort pairLe (splitAmp s) := by
  unfold sortSegments
  have hne : List.insertionSort pairLe (splitAmp s) ≠ [] := by
    intro h
    have := List.length_insertionSort pairLe (splitAmp s)
    rw [h] at this
    exact splitAmp_ne_nil s (List.length_eq_zero.mp this.symm)
  have hfree : ∀ g ∈ List.insertionSort pairLe (splitAmp s), (38 : Nat) ∉ g :=
    fun g hg => mem_splitAmp_no38 ((List.mem_insertionSort pairLe).mp hg)
  exact splitAmp_joinAmp hne hfree

/-- The split–sort–join step is idempotent on any byte string. -/
theorem sortSegments_idem (s : List Nat) :
    sortSegments (sortSegments s) = sortSegments s := by
  show joinAmp (List.insertionSort pairLe (splitAmp (sortSegments s))) = sortSegments s
  rw [splitAmp_sortSegments,
    (List.sorted_insertionSort pairLe (splitAmp s)).insertionSort_eq]
  rfl

/-! ## Absent fields and segment keys -/

theorem mem_optField {f : Field} {key : String} {v : Option String} :
    f ∈ optField key v ↔ ∃ a, v = some a ∧ f = ⟨key, a⟩ := by
  cases v <;> simp [optField, eq_comm]

/-- Every serialized `WooOrder` field carries one of the eleven declared
names, and never the name of a field that is `None`. -/
theorem wooOrderFields_key {o : WooOrder} {f : Field} (hf : f ∈ wooOrderFields o) :
    f.key ∈ wooKeys ∧ f.key ∉ noneFieldKeys o := by
  simp only [wooOrderFields, List.mem_append, List.mem_singleton, mem_optField,
    Option.map_eq_some', or_assoc] at hf
  rcases hf with rfl | ⟨a, ⟨n, hn, rfl⟩, rfl⟩ | ⟨a, ha, rfl⟩ | rfl
    | ⟨a, ⟨x, hx, rfl⟩, rfl⟩ | ⟨a, ⟨x, hx, rfl⟩, rfl⟩ | ⟨a, ⟨x, hx, rfl⟩, rfl⟩
    | ⟨a, ⟨x, hx, rfl⟩, rfl⟩ | ⟨a, ⟨x, hx, rfl⟩, rfl⟩ | rfl | ⟨a, ha, rfl⟩ <;>
    constructor <;>
    simp_all [wooKeys, noneFieldKeys]

theorem mem_noneFieldKeys_wooKeys {o : WooOrder} {k : String}
    (hk : k ∈ noneFieldKeys o) : k ∈ wooKeys := by
  simp only [noneFieldKeys, List.mem_append] at hk
  rcases hk with ((((((hk | hk) | hk) | hk) | hk) | hk) | hk) | hk <;>
    split at hk <;> simp_all [wooKeys]

/-- Distinct declared field names stay distinct after percent-encoding
(checked byte-for-byte over all pairs of declared names). -/
theorem wooKeys_encode_ne :
    ∀ k1 ∈ wooKeys, ∀ k2 ∈ wooKeys, k1 ≠ k2 → utf8 k1 ≠ percentEncode k2 := by
  decide

theorem wooKeys_no61 : ∀ k ∈ wooKeys, (61 : Nat) ∉ utf8 k := by
  decide

/-- If `a ++ "="` is a prefix of `b ++ "=" ++ t` and neither `a` nor `b`
contains `=`, the parts before the first `=` agree. -/
theorem eq_of_prefix_before61 {a b t : List Nat} (ha : (61 : Nat) ∉ a)
    (hb : (61 : Nat) ∉ b) (h : (a ++ [61]) <+: (b ++ 61 :: t)) : a = b := by
  induction a generalizing b with
  | nil =>
    cases b with
    | nil => rfl
    | cons y ys =>
      exfalso
      rw [List.nil_append, List.cons_append] at h
      rcases List.cons_prefix_cons.mp h with ⟨h61, _⟩
      exact hb (List.mem_cons.mpr (Or.inl h61))
  | cons x xs ih =>
    simp only [List.mem_cons, not_or] at ha
    cases b with
    | nil =>
      exfalso
      rw [List.cons_append, List.nil_append] at h
      rcases List.cons_prefix_cons.mp h with ⟨hx, _⟩
      exact ha.1 hx.symm
    | cons y ys =>
      simp only [List.mem_cons, not_or] at hb
      rw [List.cons_append, List.cons_append] at h
      rcases List.cons_prefix_cons.mp h with ⟨rfl, htail⟩
      rw [ih ha.2 hb.2 htail]

/-- A `key=value` segment for field `f` cannot begin with `k="` unless
`k` encodes to `f`'s encoded key. -/
theorem not_prefix_encodePair {k : String} (f : Field)
    (hk61 : (61 : Nat) ∉ utf8 k) (hne : utf8 k ≠ percentEncode f.key) :
    ¬ (utf8 k ++ [61]) <+: encodePair f := fun h =>
  hne (eq_of_prefix_before61 hk61 (percentEncode_no61 f.key) h)

/-! ## Parsing the query string back (`serde_qs::from_str` into a `BTreeMap`) -/

theorem percentDecode_escape (h l : Nat) (rest : List Nat) :
    percentDecode (37 :: h :: l :: rest) =
      (fromHexDigitByte h * 16 + fromHexDigitByte l) :: percentDecode rest := by
  rw [percentDecode.eq_def]
  simp

theorem percentDecode_plus (rest : List Nat) :
    percentDecode (43 :: rest) = 32 :: percentDecode rest := by
  rw [percentDecode.eq_def]
  simp

theorem percentDecode_cons {b : Nat} (rest : List Nat) (h37 : b ≠ 37) (h43 : b ≠ 43) :
    percentDecode (b :: rest) = b :: percentDecode rest := by
  rw [percentDecode.eq_def]
  simp [h37, h43]

/-! ## Decode/encode round trip -/

theorem utf8Char_lt256 (c : Char) : ∀ b ∈ utf8Char c, b < 256 := by
  have hv : c.toNat < 1114112 := by
    have hva := c.valid
    unfold UInt32.isValidChar Nat.isValidChar at hva
    rcases hva with h | ⟨_, h⟩ <;> (show c.val.toNat < 1114112) <;> omega
  intro b hb
  simp only [utf8Char] at hb
  split at hb <;> [skip; split at hb] <;> [skip; skip; split at hb] <;>
    simp only [List.mem_cons, List.not_mem_nil, or_false] at hb <;>
    rcases hb with rfl | rfl | rfl | rfl <;> omega

theorem utf8_lt256 (s : String) : ∀ b ∈ utf8 s, b < 256 := by
  intro b hb
  simp only [utf8, List.mem_flatten, List.mem_map] at hb
  rcases hb with ⟨l, ⟨c, _, rfl⟩, hmem⟩
  exact utf8Char_lt256 c b hmem

theorem fromHex_hexUpper {n : Nat} (h : n < 16) :
    fromHexDigitByte (hexUpperByte n) = n := by
  simp only [fromHexDigitByte, hexUpperByte]
  split_ifs <;> omega

/-- Percent-decoding undoes the query-string encoding of any byte string. -/
theorem percentDecode_encode {bs : List Nat} (h : ∀ b ∈ bs, b < 256) :
    percentDecode ((bs.map encodeByte).flatten) = bs := by
  induction bs with
  | nil => simp [percentDecode]
  | cons b rest ih =>
    have hb : b < 256 := h b (List.mem_cons_self b rest)
    have ihr := ih (fun x hx => h x (List.mem_cons_of_mem b hx))
    simp only [List.map_cons, List.flatten_cons]
    by_cases hu : isUnreservedByte b = true
    · have hb37 : b ≠ 37 := by simp [isUnreservedByte] at hu; omega
      have hb43 : b ≠ 43 := by simp [isUnreservedByte] at hu; omega
      rw [show encodeByte b = [b] from by simp [encodeByte, hu]]
      rw [List.cons_append, List.nil_append, percentDecode_cons _ hb37 hb43, ihr]
    · by_cases hs : b = 32
      · rw [show encodeByte b = [43] from by subst hs; rfl]
        rw [List.cons_append, List.nil_append, percentDecode_plus, ihr, hs]
      · rw [show encodeByte b = [37, hexUpperByte (b / 16), hexUpperByte (b % 16)]
          from by simp [encodeByte, hu, hs]]
        simp only [List.cons_append, List.nil_append]
        rw [percentDecode_escape, ihr, fromHex_hexUpper (by omega),
          fromHex_hexUpper (by omega)]
        congr 1
        omega

theorem splitEq_cons_ne {b : Nat} (bs : List Nat) (hb : b ≠ 61) :
    splitEq (b :: bs) = (b :: (splitEq bs).1, (splitEq bs).2) := by
  rw [splitEq.eq_def]
  simp [hb]

theorem splitEq_append {a : List Nat} (t : List Nat) (ha : (61 : Nat) ∉ a) :
    splitEq (a ++ 61 :: t) = (a, t) := by
  induction a with
  | nil => simp [splitEq]
  | cons b bs ih =>
    simp only [List.mem_cons, not_or] at ha
    rw [List.cons_append, splitEq_cons_ne _ (fun e => ha.1 e.symm), ih ha.2]

/-- Decoding an encoded `key=value` segment recovers the field's key and
value bytes. -/
theorem decodePair_encodePair (f : Field) :
    decodePair (encodePair f) = (utf8 f.key, utf8 f.value) := by
  unfold decodePair encodePair
  rw [splitEq_append _ (percentEncode_no61 f.key)]
  show (percentDecode (percentEncode f.key), percentDecode (percentEncode f.value))
    = (utf8 f.key, utf8 f.value)
  unfold percentEncode
  rw [percentDecode_encode (utf8_lt256 f.key), percentDecode_encode (utf8_lt256 f.value)]

/-! ## The `BTreeMap` holds a permutation of the parsed pairs -/

theorem btreeInsert_perm {k v : List Nat} {m : List (List Nat × List Nat)}
    (h : ∀ p ∈ m, p.1 ≠ k) : (btreeInsert k v m).Perm ((k, v) :: m) := by
  induction m with
  | nil => exact List.Perm.refl _
  | cons p rest ih =>
    obtain ⟨k2, v2⟩ := p
    simp only [btreeInsert]
    split
    · rename_i heq
      exact absurd heq.symm (h (k2, v2) (List.mem_cons_self _ _))
    · split
      · exact List.Perm.refl _
      · exact ((ih (fun q hq => h q (List.mem_cons_of_mem _ hq))).cons (k2, v2)).trans
          (List.Perm.swap (k, v) (k2, v2) rest)

theorem btreeFold_perm :
    ∀ (ps acc : List (List Nat × List Nat)),
      ((acc ++ ps).map Prod.fst).Nodup →
      (ps.foldl (fun m p => btreeInsert p.1 p.2 m) acc).Perm (acc ++ ps)
  | [], acc, _ => by simp
  | p :: ps, acc, h => by
    have hins : (btreeInsert p.1 p.2 acc).Perm (p :: acc) := by
      refine btreeInsert_perm fun q hq hqk => ?_
      have hnd := h
      rw [List.map_append, List.nodup_append] at hnd
      exact hnd.2.2 (List.mem_map_of_mem Prod.fst hq)
        (by rw [List.map_cons]; exact hqk ▸ List.mem_cons_self _ _)
    have hnd2 : (((btreeInsert p.1 p.2 acc) ++ ps).map Prod.fst).Nodup := by
      refine ((hins.append_right ps).map Prod.fst).nodup_iff.mpr ?_
      have : ((p :: acc) ++ ps).Perm (acc ++ p :: ps) := List.perm_middle.symm
      exact ((this.map Prod.fst).nodup_iff).mpr h
    have hmain := btreeFold_perm ps (btreeInsert p.1 p.2 acc) hnd2
    exact hmain.trans ((hins.append_right ps).trans List.perm_middle.symm)

theorem btreeFromPairs_perm {ps : List (List Nat × List Nat)}
    (h : (ps.map Prod.fst).Nodup) : (btreeFromPairs ps).Perm ps :=
  btreeFold_perm ps [] (by simpa using h)

/-! ## Keys of the serialized structs are distinct -/

theorem map_key_optField (key : String) (v : Option String) :
    ((optField key v).map Field.key).Sublist [key] := by
  cases v <;> simp [optField]

theorem wooOrderFields_keys_sublist (o : WooOrder) :
    ((wooOrderFields o).map Field.key).Sublist wooKeys := by
  unfold wooOrderFields
  simp only [List.map_append]
  exact ((((((((((by simp : (([⟨"symbol", o.symbol⟩] : List Field).map Field.key).Sublist
        ["symbol"]).append
    (map_key_optField "client_order_id" _)).append
    (map_key_optField "order_tag" _)).append
    (by simp : (([⟨"order_type", o.order_type⟩] : List Field).map Field.key).Sublist
        ["order_type"])).append
    (map_key_optField "order_price" _)).append
    (map_key_optField "order_quantity" _)).append
    (map_key_optField "order_amount" _)).append
    (map_key_optField "reduce_only" _)).append
    (map_key_optField "visible_quantity" _)).append
    (by simp : (([⟨"side", o.side⟩] : List Field).map Field.key).Sublist ["side"])).append
    (map_key_optField "position_side" _)

theorem wooKeys_utf8_nodup : (wooKeys.map utf8).Nodup := by decide

theorem wooOrderFields_keys_utf8_nodup (o : WooOrder) :
    (((wooOrderFields o).map Field.key).map utf8).Nodup :=
  wooKeys_utf8_nodup.sublist ((wooOrderFields_keys_sublist o).map utf8)

theorem wooOrderFields_ne_nil (o : WooOrder) : wooOrderFields o ≠ [] := by
  unfold wooOrderFields
  simp

theorem cancelOrderFields_ne_nil (c : CancelOrder) : cancelOrderFields c ≠ [] := by
  unfold cancelOrderFields
  simp

theorem cancelOrderFields_keys_utf8_nodup (c : CancelOrder) :
    (((cancelOrderFields c).map Field.key).map utf8).Nodup := by
  show ([utf8 "order_id", utf8 "symbol"]).Nodup
  decide

/-- The transmitted form body holds, as a multiset, exactly the decoded
pairs of the segments of the canonical (signed) query string. -/
theorem body_perm_signed {fields : List Field} (hne : fields ≠ [])
    (hnd : (((fields.map Field.key).map utf8)).Nodup) :
    (btreeFromPairs (parseQsPairs (serde_qs_to_string fields))).Perm
      ((splitAmp (generate_sorted_query_string fields)).map decodePair) := by
  have hpairs : parseQsPairs (serde_qs_to_string fields)
      = fields.map (fun f => (utf8 f.key, utf8 f.value)) := by
    unfold parseQsPairs
    rw [splitAmp_serde hne, List.map_map]
    exact List.map_congr_left (fun f _ => decodePair_encodePair f)
  have hfst : (parseQsPairs (serde_qs_to_string fields)).map Prod.fst
      = (fields.map Field.key).map utf8 := by
    rw [hpairs, List.map_map, List.map_map]
    rfl
  have h1 := btreeFromPairs_perm (hfst ▸ hnd)
  refine h1.trans ?_
  show ((splitAmp (serde_qs_to_string fields)).map decodePair).Perm _
  rw [show generate_sorted_query_string fields
      = sortSegments (serde_qs_to_string fields) from rfl, splitAmp_sortSegments]
  exact ((List.perm_insertionSort pairLe _).map decodePair).symm

/-! ## Output shape of the signer -/

theorem be32_lt256 (n : Nat) : ∀ b ∈ be32 n, b < 256 := by
  intro b hb
  simp only [be32, List.mem_cons, List.not_mem_nil, or_false] at hb
  rcases hb with rfl | rfl | rfl | rfl <;> omega

theorem sha256_length (msg : List Nat) : (sha256 msg).length = 32 := by
  unfold sha256
  simp [be32]

theorem sha256_lt256 (msg : List Nat) : ∀ b ∈ sha256 msg, b < 256 := by
  intro b hb
  unfold sha256 at hb
  simp only [List.mem_append, or_assoc] at hb
  rcases hb with hb | hb | hb | hb | hb | hb | hb | hb <;> exact be32_lt256 _ b hb

theorem hmacSha256_length (key msg : List Nat) : (hmacSha256 key msg).length = 32 :=
  sha256_length _

theorem hmacSha256_lt256 (key msg : List Nat) : ∀ b ∈ hmacSha256 key msg, b < 256 :=
  sha256_lt256 _

theorem hexEncodeBytes_length (bs : List Nat) :
    (hexEncodeBytes bs).length = 2 * bs.length := by
  induction bs with
  | nil => rfl
  | cons b rest ih =>
    simp only [hexEncodeBytes, List.map_cons, List.flatten_cons, List.length_append,
      List.length_cons, List.length_nil] at ih ⊢
    omega

theorem mem_hexEncodeBytes {bs : List Nat} (h : ∀ x ∈ bs, x < 256) :
    ∀ b ∈ hexEncodeBytes bs, isLowerHexByte b := by
  intro b hb
  simp only [hexEncodeBytes, List.mem_flatten, List.mem_map] at hb
  rcases hb with ⟨l, ⟨x, hx, rfl⟩, hmem⟩
  have hx256 := h x hx
  simp only [List.mem_cons, List.not_mem_nil, or_false] at hmem
  rcases hmem with rfl | rfl <;>
    (unfold isLowerHexByte hexLowerByte; split_ifs <;> omega)

/-! ## Strings and integers -/

theorem utf8_append (a b : String) : utf8 (a ++ b) = utf8 a ++ utf8 b := by
  show ((String.data (a ++ b)).map utf8Char).flatten = _
  rw [String.data_append, List.map_append, List.flatten_append]
  rfl

/-- An `i64` in `0 ≤ t < 2 ^ 63` renders in decimal exactly like its
`as u64` cast. -/
theorem intRepr_eq_cast {t : Int} (h0 : 0 ≤ t) (h1 : t < 2 ^ 63) :
    toString t = Nat.repr (toU64 t) := by
  have h2 : t % (2 : Int) ^ 64 = t := Int.emod_eq_of_lt h0 (by omega)
  obtain ⟨m, rfl⟩ := Int.eq_ofNat_of_zero_le h0
  unfold toU64
  rw [h2]
  rfl

/-! ## The claims -/

set_option maxRecDepth 10000 in
/-- C1: for the request `{order_type: "LIMIT", side: "BUY",
symbol: "SPOT_BTC_USDT", order_price: 9000.0, order_quantity: 0.11}` (all
other fields absent), timestamp `1578565539808` and secret
`"QHKRXHPAW1MC9YGZMAT8YDJG2HPR"`, composing the canonical query encoder
with the signer produces exactly the signature
`20da0852f73b20da0208c7e627975a59ff072379883d8457d03104651032033d`. -/
theorem C1_known_vector_signature :
    generate_hmac_sha256_signature
        (generate_sorted_query_string (wooOrderFields knownVectorOrder))
        1578565539808 (utf8 "QHKRXHPAW1MC9YGZMAT8YDJG2HPR")
      = utf8 "20da0852f73b20da0208c7e627975a59ff072379883d8457d03104651032033d" := by
  decide

/-- C2: for every serializable request, the canonical query encoder
returns exactly the string obtained by encoding each present field as a
`key=value` pair, sorting the fully-formed pair-strings (not the keys) in
byte-wise lexicographic order, and joining them with `&`. -/
theorem C2_encoder_sorts_encoded_pairs (fields : List Field) :
    generate_sorted_query_string fields = specSortedQueryString fields :=
  gsqs_eq_spec fields

/-- C3: for every canonical query string, timestamp and secret key, the
signer returns the lowercase hex encoding (64 characters, by the length
conjunct) of the HMAC-SHA256 digest, keyed by the secret's bytes, of the
bytes of `s + "|" + decimal(t)`. -/
theorem C3_signer_is_hex_hmac_of_piped_input (s : List Nat) (t : Nat) (k : List Nat) :
    generate_hmac_sha256_signature s t k = spec_signer s t k ∧
    (generate_hmac_sha256_signature s t k).length = 64 := by
  constructor
  · unfold generate_hmac_sha256_signature spec_signer signature_input
    rw [utf8_append, show utf8 "|" = [124] from rfl]
    rfl
  · unfold generate_hmac_sha256_signature
    rw [hexEncodeBytes_length, hmacSha256_length]

/-- C4: supplying the present fields in any permutation yields the
identical Canonical Query String, and re-applying the split–sort–join
step to the encoder's output leaves it unchanged. -/
theorem C4_permutation_invariant_and_idempotent (f1 f2 : List Field) (h : f1.Perm f2) :
    generate_sorted_query_string f1 = generate_sorted_query_string f2 ∧
    sortSegments (generate_sorted_query_string f1) = generate_sorted_query_string f1 :=
  ⟨gsqs_of_perm h, sortSegments_idem (serde_qs_to_string f1)⟩

theorem C4_witness :
    generate_sorted_query_string [⟨"order_type", "LIMIT"⟩, ⟨"side", "BUY"⟩]
      = generate_sorted_query_string [⟨"side", "BUY"⟩, ⟨"order_type", "LIMIT"⟩] ∧
    sortSegments (generate_sorted_query_string [⟨"order_type", "LIMIT"⟩, ⟨"side", "BUY"⟩])
      = generate_sorted_query_string [⟨"order_type", "LIMIT"⟩, ⟨"side", "BUY"⟩] :=
  C4_permutation_invariant_and_idempotent
    [⟨"order_type", "LIMIT"⟩, ⟨"side", "BUY"⟩]
    [⟨"side", "BUY"⟩, ⟨"order_type", "LIMIT"⟩] (by decide)

/-- C5: a `WooOrder` field set to `None` contributes no `key=` segment to
the Canonical Query String, and the output is a function of the present
`(key, value)` pairs alone. -/
theorem C5_absent_field_never_encoded (o o2 : WooOrder) (k : String)
    (hk : k ∈ noneFieldKeys o) (h2 : wooOrderFields o = wooOrderFields o2) :
    (∀ seg ∈ splitAmp (generate_sorted_query_string (wooOrderFields o)),
      ¬ (utf8 k ++ [61]) <+: seg) ∧
    generate_sorted_query_string (wooOrderFields o)
      = generate_sorted_query_string (wooOrderFields o2) := by
  constructor
  · intro seg hseg
    rw [show generate_sorted_query_string (wooOrderFields o)
        = sortSegments (serde_qs_to_string (wooOrderFields o)) from rfl,
      splitAmp_sortSegments] at hseg
    have hseg2 := (List.mem_insertionSort pairLe).mp hseg
    rw [splitAmp_serde (wooOrderFields_ne_nil o)] at hseg2
    rcases List.mem_map.mp hseg2 with ⟨f, hf, rfl⟩
    obtain ⟨hfk_mem, hfk_not⟩ := wooOrderFields_key hf
    have hkw := mem_noneFieldKeys_wooKeys hk
    have hne : k ≠ f.key := fun e => hfk_not (e ▸ hk)
    exact not_prefix_encodePair f (wooKeys_no61 k hkw)
      (wooKeys_encode_ne k hkw f.key hfk_mem hne)
  · rw [h2]

theorem C5_witness :
    (∀ seg ∈ splitAmp (generate_sorted_query_string (wooOrderFields knownVectorOrder)),
      ¬ (utf8 "order_tag" ++ [61]) <+: seg) ∧
    generate_sorted_query_string (wooOrderFields knownVectorOrder)
      = generate_sorted_query_string (wooOrderFields knownVectorOrder) :=
  C5_absent_field_never_encoded knownVectorOrder knownVectorOrder "order_tag"
    (by decide) rfl

/-- C6: a request with zero present fields encodes to the empty string
(not a lone separator), and its Signature Input is exactly
`"|" + decimal(t)`. -/
theorem C6_empty_request (t : Nat) :
    generate_sorted_query_string [] = [] ∧
    signature_input (generate_sorted_query_string []) t = utf8 ("|" ++ Nat.repr t) := by
  refine ⟨rfl, ?_⟩
  rw [utf8_append, show utf8 "|" = [124] from rfl]
  rfl

/-- C7: for every order and every cancel request, the multiset of decoded
key-value pairs placed in the transmitted form body equals the multiset of
decoded pairs of the segments the signature is computed over — both are
derived from the same serialization of the same request value. -/
theorem C7_body_matches_signed_pairs (o : WooOrder) (c : CancelOrder) (t : Int)
    (secret : List Nat) :
    ((create_order_request secret o t).body).Perm
      ((splitAmp (generate_sorted_query_string (wooOrderFields o))).map decodePair) ∧
    ((cancel_order_request secret c t).body).Perm
      ((splitAmp (generate_sorted_query_string (cancelOrderFields c))).map decodePair) :=
  ⟨body_perm_signed (wooOrderFields_ne_nil o) (wooOrderFields_keys_utf8_nodup o),
   body_perm_signed (cancelOrderFields_ne_nil c) (cancelOrderFields_keys_utf8_nodup c)⟩

/-- C9: signing is total in the secret key — for every key (any length,
including the empty key) the signer produces a well-formed signature: 64
bytes, all lowercase hexadecimal digits. -/
theorem C9_signing_total_for_all_keys (qs secret : List Nat) (t : Nat) :
    (generate_hmac_sha256_signature qs t secret).length = 64 ∧
    ∀ b ∈ generate_hmac_sha256_signature qs t secret, isLowerHexByte b := by
  constructor
  · unfold generate_hmac_sha256_signature
    rw [hexEncodeBytes_length, hmacSha256_length]
  · unfold generate_hmac_sha256_signature
    exact mem_hexEncodeBytes (hmacSha256_lt256 _ _)

/-- C10: in each builder call a single timestamp parameterizes the whole
request: the `x-api-timestamp` header is its decimal rendering, the
`x-api-signature` header is computed at its `as u64` cast, and (for the
`i64` range actually produced by the clock) the header's text equals the
decimal of the cast timestamp embedded in the Signature Input. -/
theorem C10_single_timestamp_header_eq_signed (o : WooOrder) (c : CancelOrder)
    (secret : List Nat) (t : Int) (h0 : 0 ≤ t) (h1 : t < 2 ^ 63) :
    (create_order_request secret o t).x_api_timestamp = toString t ∧
    (create_order_request secret o t).x_api_signature
      = generate_hmac_sha256_signature
          (generate_sorted_query_string (wooOrderFields o)) (toU64 t) secret ∧
    utf8 ((create_order_request secret o t).x_api_timestamp)
      = utf8 (Nat.repr (toU64 t)) ∧
    (cancel_order_request secret c t).x_api_timestamp = toString t ∧
    (cancel_order_request secret c t).x_api_signature
      = generate_hmac_sha256_signature
          (generate_sorted_query_string (cancelOrderFields c)) (toU64 t) secret ∧
    utf8 ((cancel_order_request secret c t).x_api_timestamp)
      = utf8 (Nat.repr (toU64 t)) := by
  refine ⟨rfl, rfl, ?_, rfl, rfl, ?_⟩ <;>
    (show utf8 (toString t) = _; rw [intRepr_eq_cast h0 h1])

theorem C10_witness :
    (create_order_request [] knownVectorOrder 1578565539808).x_api_timestamp
      = toString (1578565539808 : Int) ∧
    (create_order_request [] knownVectorOrder 1578565539808).x_api_signature
      = generate_hmac_sha256_signature
          (generate_sorted_query_string (wooOrderFields knownVectorOrder))
          (toU64 1578565539808) [] ∧
    utf8 ((create_order_request [] knownVectorOrder 1578565539808).x_api_timestamp)
      = utf8 (Nat.repr (toU64 1578565539808)) ∧
    (cancel_order_request [] sampleCancelOrder 1578565539808).x_api_timestamp
      = toString (1578565539808 : Int) ∧
    (cancel_order_request [] sampleCancelOrder 1578565539808).x_api_signature
      = generate_hmac_sha256_signature
          (generate_sorted_query_string (cancelOrderFields sampleCancelOrder))
          (toU64 1578565539808) [] ∧
    utf8 ((cancel_order_request [] sampleCancelOrder 1578565539808).x_api_timestamp)
      = utf8 (Nat.repr (toU64 1578565539808)) :=
  C10_single_timestamp_header_eq_signed knownVectorOrder sampleCancelOrder []
    1578565539808 (by decide) (by decide)

end Woo
